import Mathlib

/-!
Verification development for the Encar crawl-and-dedup controller
(repository file runScraper.py).

Strings of the host language are modelled as lists of characters
(type Str below); raw identifiers coming from decoded response bodies
are modelled by their string form, with a missing field as none.
-/

set_option linter.unusedVariables false

/-- Strings are modelled as lists of characters. -/
abbrev Str := List Char

/-- Whitespace characters removed by strip: space, tab, newline,
carriage return, vertical tab, form feed. -/
def isSpaceChar (c : Char) : Bool :=
  c == ' ' || c == '\t' || c == '\n' || c == '\r' ||
  c == '\x0b' || c == '\x0c'

/-- Decimal digit test used by the isdigit check. -/
def isDigitChar (c : Char) : Bool :=
  48 ≤ c.toNat && c.toNat ≤ 57

/-- Model of str.strip: drop whitespace from both ends. -/
def strip (s : Str) : Str :=
  ((s.dropWhile isSpaceChar).reverse.dropWhile isSpaceChar).reverse

/-- Model of str.isdigit on a nonempty string: all characters are
decimal digits. -/
def allDigits (s : Str) : Bool :=
  s.all isDigitChar

/-- Model of int(s) on an all-digit string: standard decimal parse. -/
def parseDigits (s : Str) : Nat :=
  s.foldl (fun a c => 10 * a + (c.toNat - 48)) 0

/-- Single decimal digit character, for rendering integers. -/
def digitChar : Nat → Char
  | 0 => '0'
  | 1 => '1'
  | 2 => '2'
  | 3 => '3'
  | 4 => '4'
  | 5 => '5'
  | 6 => '6'
  | 7 => '7'
  | 8 => '8'
  | _ => '9'

/-- Little-endian digit list of a natural number, with an explicit
fuel argument so that evaluation is structural (fuel n + 1 always
suffices for input n). -/
def renderAux : Nat → Nat → Str
  | 0, _ => []
  | fuel + 1, n =>
    if n < 10 then [digitChar n]
    else digitChar (n % 10) :: renderAux fuel (n / 10)

/-- Model of str(n) for a nonnegative integer n: decimal rendering
without leading zeros. -/
def render (n : Nat) : Str :=
  (renderAux (n + 1) n).reverse

theorem renderAux_fuel_irrel : ∀ f g n, n < f → n < g →
    renderAux f n = renderAux g n := by
  intro f
  induction f with
  | zero => intro g n hf; omega
  | succ f ih =>
    intro g n hf hg
    match g with
    | 0 => omega
    | g + 1 =>
      by_cases h10 : n < 10
      · simp [renderAux, h10]
      · have hdiv : n / 10 < n := Nat.div_lt_self (by omega) (by omega)
        simp only [renderAux, if_neg h10]
        have := ih (g := g) (n := n / 10) (by omega) (by omega)
        rw [this]

/-- Unfolding equation for render at the level of renderAux with
canonical fuel. -/
theorem renderAux_eq (n : Nat) : renderAux (n + 1) n =
    if n < 10 then [digitChar n]
    else digitChar (n % 10) :: renderAux (n / 10 + 1) (n / 10) := by
  by_cases h10 : n < 10
  · simp [renderAux, h10]
  · have hdiv : n / 10 < n := Nat.div_lt_self (by omega) (by omega)
    rw [if_neg h10]
    conv_lhs => simp only [renderAux]
    rw [if_neg h10]
    congr 1
    exact renderAux_fuel_irrel n (n / 10 + 1) (n / 10) (by omega) (by omega)

/-- The stored value produced by the normalizer: a parsed integer for
all-digit identifiers, the trimmed string otherwise. -/
inductive StoredValue where
  | intV (n : Nat)
  | strV (s : Str)
deriving DecidableEq, Repr

/-- String form str(v) of a stored value. -/
def storedStr : StoredValue → Str
  | .intV n => render n
  | .strV s => s

/-- Embedding of normalize_car_id (runScraper.py lines 120-133).
The input is the string form of the raw identifier, or none when the
raw identifier is null/absent. -/
def normalize_car_id (raw_id : Option Str) : Option (Str × StoredValue) :=
  match raw_id with
  | none => none
  | some r =>
    let raw_str := strip r
    if raw_str = [] then none
    else if allDigits raw_str then some (raw_str, .intV (parseDigits raw_str))
    else some (raw_str, .strV raw_str)

theorem char_toNat_inj {c d : Char} (h : c.toNat = d.toNat) : c = d :=
  Char.ext (UInt32.ext h)

theorem isDigitChar_bounds {c : Char} (h : isDigitChar c = true) :
    48 ≤ c.toNat ∧ c.toNat ≤ 57 := by
  simpa [isDigitChar, Bool.and_eq_true, decide_eq_true_eq] using h

theorem digitChar_toNat {d : Nat} (h : d < 10) : (digitChar d).toNat = 48 + d := by
  interval_cases d <;> decide

theorem isDigitChar_digitChar {d : Nat} (h : d < 10) :
    isDigitChar (digitChar d) = true := by
  interval_cases d <;> decide

theorem digitChar_of_isDigit {c : Char} (h : isDigitChar c = true) :
    digitChar (c.toNat - 48) = c := by
  have hb := isDigitChar_bounds h
  apply char_toNat_inj
  rw [digitChar_toNat (by omega)]
  omega

theorem digit_not_space {c : Char} (h : isDigitChar c = true) :
    isSpaceChar c = false := by
  have hb := isDigitChar_bounds h
  rw [Bool.eq_false_iff]
  intro habs
  unfold isSpaceChar at habs
  simp only [Bool.or_eq_true, beq_iff_eq] at habs
  rcases habs with ((((rfl | rfl) | rfl) | rfl) | rfl) | rfl <;>
    exact absurd hb (by decide)

theorem parseDigits_append (l : Str) (c : Char) :
    parseDigits (l ++ [c]) = 10 * parseDigits l + (c.toNat - 48) := by
  simp [parseDigits, List.foldl_append]

theorem parse_foldl_ge : ∀ (l : Str) (a : Nat), 1 ≤ a →
    1 ≤ l.foldl (fun a c => 10 * a + (c.toNat - 48)) a := by
  intro l
  induction l with
  | nil => intro a h; exact h
  | cons c cs ih =>
    intro a h
    simp only [List.foldl_cons]
    refine ih _ ?_
    omega

theorem parseDigits_pos {c : Char} {cs : Str} (hd : isDigitChar c = true)
    (h0 : c ≠ '0') : 1 ≤ parseDigits (c :: cs) := by
  have hb := isDigitChar_bounds hd
  have hne : c.toNat ≠ 48 := by
    intro hy
    exact h0 (char_toNat_inj (by rw [hy]; rfl))
  unfold parseDigits
  simp only [List.foldl_cons]
  refine parse_foldl_ge cs _ ?_
  omega

theorem parseDigits_render (n : Nat) : parseDigits (render n) = n := by
  induction n using Nat.strong_induction_on with
  | _ n ih =>
    by_cases h10 : n < 10
    · unfold render
      rw [renderAux_eq, if_pos h10]
      simp [parseDigits, digitChar_toNat h10]
    · have hdiv : n / 10 < n := Nat.div_lt_self (by omega) (by omega)
      unfold render
      rw [renderAux_eq, if_neg h10, List.reverse_cons]
      have hr : (renderAux (n / 10 + 1) (n / 10)).reverse = render (n / 10) := rfl
      rw [hr, parseDigits_append, ih (n / 10) hdiv, digitChar_toNat (by omega)]
      omega

theorem renderAux_digits (n : Nat) :
    ∀ c ∈ renderAux (n + 1) n, isDigitChar c = true := by
  induction n using Nat.strong_induction_on with
  | _ n ih =>
    rw [renderAux_eq]
    by_cases h10 : n < 10
    · rw [if_pos h10]
      intro c hc
      rw [List.mem_singleton] at hc
      subst hc
      exact isDigitChar_digitChar h10
    · have hdiv : n / 10 < n := Nat.div_lt_self (by omega) (by omega)
      rw [if_neg h10]
      intro c hc
      rcases List.mem_cons.mp hc with h | h
      · subst h; exact isDigitChar_digitChar (by omega)
      · exact ih (n / 10) hdiv c h

theorem render_allDigits (n : Nat) : allDigits (render n) = true := by
  unfold render allDigits
  rw [List.all_eq_true]
  intro c hc
  exact renderAux_digits n c (List.mem_reverse.mp hc)

theorem render_ne_nil (n : Nat) : render n ≠ [] := by
  unfold render
  rw [renderAux_eq]
  by_cases h10 : n < 10
  · rw [if_pos h10]; simp
  · rw [if_neg h10]; simp

theorem render_parseDigits : ∀ l : Str, l ≠ [] → allDigits l = true →
    (2 ≤ l.length → l.head? ≠ some '0') → render (parseDigits l) = l := by
  intro l
  induction l using List.reverseRecOn with
  | nil => intro h; exact absurd rfl h
  | append_singleton ys c ih =>
    intro hne hdig hlz
    have hdig' : allDigits ys = true ∧ isDigitChar c = true := by
      unfold allDigits at hdig ⊢
      simp only [List.all_append, Bool.and_eq_true, List.all_cons, List.all_nil,
        Bool.and_true] at hdig
      exact hdig
    match ys with
    | [] =>
      have hb := isDigitChar_bounds hdig'.2
      have hp : parseDigits [c] = c.toNat - 48 := by simp [parseDigits]
      simp only [List.nil_append, hp]
      unfold render
      rw [renderAux_eq, if_pos (by omega), List.reverse_singleton]
      rw [digitChar_of_isDigit hdig'.2]
    | y :: ys₀ =>
      have hb := isDigitChar_bounds hdig'.2
      have hy : isDigitChar y = true := by
        unfold allDigits at hdig'
        simp only [List.all_cons, Bool.and_eq_true] at hdig'
        exact hdig'.1.1
      have hy0 : y ≠ '0' := by
        have hh := hlz (by
          simp only [List.length_append, List.length_cons, List.length_nil]
          omega)
        simpa using hh
      have hpos : 1 ≤ parseDigits (y :: ys₀) := parseDigits_pos hy hy0
      rw [parseDigits_append]
      set p := parseDigits (y :: ys₀) with hp
      have hge : ¬ 10 * p + (c.toNat - 48) < 10 := by omega
      unfold render
      rw [renderAux_eq, if_neg hge]
      have hmod : (10 * p + (c.toNat - 48)) % 10 = c.toNat - 48 := by omega
      have hdivp : (10 * p + (c.toNat - 48)) / 10 = p := by omega
      rw [hmod, hdivp, List.reverse_cons]
      have hr : (renderAux (p + 1) p).reverse = render p := rfl
      rw [hr, digitChar_of_isDigit hdig'.2]
      congr 1
      exact ih (by simp) hdig'.1 (fun _ hcontra => hy0 (Option.some.inj hcontra))

theorem head_dropWhile_not {p : Char → Bool} : ∀ (l : Str) (c : Char) (cs : Str),
    l.dropWhile p = c :: cs → p c = false := by
  intro l
  induction l with
  | nil => intro c cs h; cases h
  | cons a l ih =>
    intro c cs h
    by_cases hp : p a
    · rw [List.dropWhile_cons, if_pos hp] at h
      exact ih c cs h
    · rw [List.dropWhile_cons, if_neg hp] at h
      obtain ⟨h1, h2⟩ := List.cons.inj h
      subst h1
      exact Bool.eq_false_iff.mpr hp

theorem dropWhile_of_head_not {p : Char → Bool} {l : Str}
    (h : ∀ c cs, l = c :: cs → p c = false) : l.dropWhile p = l := by
  match l with
  | [] => rfl
  | c :: cs =>
    rw [List.dropWhile_cons, if_neg]
    rw [h c cs rfl]
    simp

theorem dropWhile_idem (p : Char → Bool) (l : Str) :
    (l.dropWhile p).dropWhile p = l.dropWhile p := by
  apply dropWhile_of_head_not
  intro c cs h
  exact head_dropWhile_not l c cs h

theorem strip_decompose (s : Str) :
    ∃ t, s.dropWhile isSpaceChar = strip s ++ t := by
  refine ⟨((s.dropWhile isSpaceChar).reverse.takeWhile isSpaceChar).reverse, ?_⟩
  unfold strip
  rw [← List.reverse_append, List.takeWhile_append_dropWhile, List.reverse_reverse]

theorem strip_head_not (s : Str) : ∀ c cs, strip s = c :: cs →
    isSpaceChar c = false := by
  intro c cs h
  obtain ⟨t, ht⟩ := strip_decompose s
  rw [h] at ht
  exact head_dropWhile_not s c (cs ++ t) (by rw [ht]; simp)

theorem strip_idem (s : Str) : strip (strip s) = strip s := by
  set k := strip s with hk
  show strip k = k
  have hA : List.dropWhile isSpaceChar k = k :=
    dropWhile_of_head_not (fun c cs hcc =>
      strip_head_not s c cs (by rw [← hk]; exact hcc))
  have hB : List.dropWhile isSpaceChar k.reverse = k.reverse := by
    rw [hk]
    unfold strip
    rw [List.reverse_reverse]
    exact dropWhile_idem _ _
  unfold strip
  rw [hA, hB, List.reverse_reverse]

theorem strip_of_no_space {l : Str} (h : ∀ c ∈ l, isSpaceChar c = false) :
    strip l = l := by
  have hA : List.dropWhile isSpaceChar l = l :=
    dropWhile_of_head_not (fun c cs hl =>
      h c (by rw [hl]; exact List.mem_cons_self c cs))
  have hB : List.dropWhile isSpaceChar l.reverse = l.reverse :=
    dropWhile_of_head_not (fun c cs hl =>
      h c (List.mem_reverse.mp (by rw [hl]; exact List.mem_cons_self c cs)))
  unfold strip
  rw [hA, hB, List.reverse_reverse]

theorem strip_allDigits {l : Str} (h : allDigits l = true) : strip l = l := by
  apply strip_of_no_space
  intro c hc
  exact digit_not_space (by
    unfold allDigits at h
    rw [List.all_eq_true] at h
    exact h c hc)

theorem strip_render (n : Nat) : strip (render n) = render n :=
  strip_allDigits (render_allDigits n)

/-- Normalizing the string form of an integer stored value succeeds and
yields the decimal rendering as canonical key with the same value. -/
theorem normalize_storedStr_intV (n : Nat) :
    normalize_car_id (some (storedStr (.intV n))) = some (render n, .intV n) := by
  show normalize_car_id (some (render n)) = _
  unfold normalize_car_id
  simp only [strip_render, if_neg (render_ne_nil n), render_allDigits,
    if_pos, parseDigits_render]

example : normalize_car_id (some " 42 ".toList) = some ("42".toList, .intV 42) := by decide
example : normalize_car_id (some "00042".toList) = some ("00042".toList, .intV 42) := by decide
example : normalize_car_id (some "  ".toList) = none := by decide
example : normalize_car_id (some "a7 ".toList) = some ("a7".toList, .strV "a7".toList) := by decide
example : storedStr (.intV 42) = "42".toList := by decide

/-- Repeat-page budget constant (runScraper.py line 25). -/
def DOUBLE_PAGES_TO_SKIP : Int := 10

/-- A raw record, reduced to the string form of its Id field
(none when the field is null or absent). -/
abbrev RawRec := Option Str

/-- In-memory dedup state of scrape_trucks: the ordered collected list
(each entry is the stored value of one identifier) plus the set of
canonical keys seen so far (runScraper.py line 316). -/
@[ext]
structure CrawlState where
  collected : List StoredValue
  seen : Finset Str
deriving DecidableEq

/-- One iteration of the per-record loop (runScraper.py lines 346-357):
normalize the Id; skip on failure; on a fresh key append the stored
value and record the key, counting it as new; otherwise count a
repeat. The accumulator carries (state, new_count, repeat_count). -/
def processCar (acc : CrawlState × Nat × Nat) (rid : RawRec) :
    CrawlState × Nat × Nat :=
  match normalize_car_id rid with
  | none => acc
  | some (k, v) =>
    if k ∈ acc.1.seen then (acc.1, acc.2.1, acc.2.2 + 1)
    else (⟨acc.1.collected ++ [v], insert k acc.1.seen⟩, acc.2.1 + 1, acc.2.2)

/-- Processing of one page of results, returning the updated state and
the page's (new_count, repeat_count). -/
def processPage (st : CrawlState) (page : List RawRec) :
    CrawlState × Nat × Nat :=
  page.foldl processCar (st, 0, 0)

/-- Outcome of one HTTP exchange as seen by fetch_page: a transport
error, or a response with a status code and a body. The body is none
when it is not decodable as structured data; a decodable body carries
the optional SearchResults field. -/
inductive HttpResult where
  | transportError
  | response (status : Nat) (body : Option (Option (List RawRec)))

/-- Embedding of fetch_page (runScraper.py lines 136-173): transport
errors, non-200 statuses and undecodable bodies all map to none; a
decoded body yields its SearchResults field, defaulting to the empty
list. -/
def fetch_page : HttpResult → Option (List RawRec)
  | .transportError => none
  | .response status body =>
    if status ≠ 200 then none
    else
      match body with
      | none => none
      | some payload => some (payload.getD [])

/-- Result of one year's pagination loop: final state, final repeat
budget, number of pages consumed, number of consumed pages that
contributed zero new identifiers, and the records of all consumed
pages in order (the records actually fed to the dedup loop). -/
structure YearResult where
  state : CrawlState
  budget : Int
  consumed : Nat
  zpages : Nat
  fed : List RawRec

/-- Embedding of the per-year while loop of scrape_trucks
(runScraper.py lines 322-385). The list holds the successive HTTP
outcomes at offsets 0, PAGE_SIZE, 2*PAGE_SIZE, ...: a failed fetch or
an empty page breaks; otherwise the page is processed, the budget is
decremented when the page contributed nothing new, and the loop breaks
when the budget falls below zero. -/
def runYearB : CrawlState → Int → List HttpResult → YearResult
  | st, b, [] => ⟨st, b, 0, 0, []⟩
  | st, b, h :: rest =>
    match fetch_page h with
    | none => ⟨st, b, 1, 0, []⟩
    | some [] => ⟨st, b, 1, 0, []⟩
    | some (c :: cs) =>
      if (processPage st (c :: cs)).2.1 = 0 then
        if b - 1 < 0 then ⟨(processPage st (c :: cs)).1, b - 1, 1, 1, c :: cs⟩
        else
          ⟨(runYearB (processPage st (c :: cs)).1 (b - 1) rest).state,
            (runYearB (processPage st (c :: cs)).1 (b - 1) rest).budget,
            (runYearB (processPage st (c :: cs)).1 (b - 1) rest).consumed + 1,
            (runYearB (processPage st (c :: cs)).1 (b - 1) rest).zpages + 1,
            (c :: cs) ++ (runYearB (processPage st (c :: cs)).1 (b - 1) rest).fed⟩
      else
        if b < 0 then ⟨(processPage st (c :: cs)).1, b, 1, 0, c :: cs⟩
        else
          ⟨(runYearB (processPage st (c :: cs)).1 b rest).state,
            (runYearB (processPage st (c :: cs)).1 b rest).budget,
            (runYearB (processPage st (c :: cs)).1 b rest).consumed + 1,
            (runYearB (processPage st (c :: cs)).1 b rest).zpages,
            (c :: cs) ++ (runYearB (processPage st (c :: cs)).1 b rest).fed⟩

/-- The outer loop of scrape_trucks over the descending year range:
each year starts a fresh budget of DOUBLE_PAGES_TO_SKIP and continues
from the state the previous year left. Returns the final state and
all records fed to the dedup loop. -/
def runYears : CrawlState → List (List HttpResult) → CrawlState × List RawRec
  | st, [] => (st, [])
  | st, y :: ys =>
    let r := runYearB st DOUBLE_PAGES_TO_SKIP y
    let rest := runYears r.state ys
    (rest.1, r.fed ++ rest.2)

/-- Embedding of save_results (runScraper.py lines 301-307): the
persisted file is the collected list, in insertion order. -/
def save_results (st : CrawlState) : List StoredValue :=
  st.collected

/-- Embedding of scrape_trucks (runScraper.py lines 310-388) from a
given initial state over a list of years: runs every year and then
performs the final unconditional persist. Returns (final state, fed
records, persisted list). -/
def scrape_trucks (init : CrawlState) (years : List (List HttpResult)) :
    CrawlState × List RawRec × List StoredValue :=
  let r := runYears init years
  (r.1, r.2, save_results r.1)

/-- Embedding of load_existing_results (runScraper.py lines 176-209).
The input is none when the file is absent, unreadable or not a list
(yielding the empty state); otherwise it is the decoded list of entry
identifier values (the shape save_results writes). Every entry whose
string form normalizes is appended to the collected list and its
canonical key added to the seen set; nothing is deduplicated here. -/
def load_existing_results (data : Option (List StoredValue)) : CrawlState :=
  match data with
  | none => ⟨[], ∅⟩
  | some entries =>
    entries.foldl (fun st v =>
      match normalize_car_id (some (storedStr v)) with
      | none => st
      | some (k, sv) => ⟨st.collected ++ [sv], insert k st.seen⟩) ⟨[], ∅⟩

/-- Canonical key an entry denotes, recovered the way the code itself
recovers it (by normalizing the stored value's string form). -/
def entryKey (v : StoredValue) : Option Str :=
  (normalize_car_id (some (storedStr v))).map (fun p => p.1)

/-- Canonical keys of the entries of a collected list, in order. -/
def entryKeys (l : List StoredValue) : List Str :=
  l.filterMap entryKey

/-- The CollectedSet invariant claimed by the spec: the seen set is
exactly the set of canonical keys of the entries of the sequence, and
no two entries of the sequence share a canonical key. -/
def SetInv (st : CrawlState) : Prop :=
  st.seen = (entryKeys st.collected).toFinset ∧ (entryKeys st.collected).Nodup

instance (st : CrawlState) : Decidable (SetInv st) := by
  unfold SetInv
  infer_instance

example :
    (processPage ⟨[], ∅⟩ [some "00042".toList, some "42".toList]).2.1 = 2 := by
  decide

example :
    load_existing_results (some [.intV 5, .intV 5]) =
      ⟨[.intV 5, .intV 5], {"5".toList}⟩ := by
  decide

/-- Canonical keys of the records of a page (in order, skipping
records whose identifier fails to normalize). -/
def recKeys (page : List RawRec) : List Str :=
  page.filterMap (fun r => (normalize_car_id r).map (fun p => p.1))

theorem processCar_skip {acc : CrawlState × Nat × Nat} {rid : RawRec}
    (h : normalize_car_id rid = none) : processCar acc rid = acc := by
  simp [processCar, h]

theorem processCar_seen (acc : CrawlState × Nat × Nat) (rid : RawRec) :
    (processCar acc rid).1.seen = acc.1.seen ∪ (recKeys [rid]).toFinset := by
  cases h : normalize_car_id rid with
  | none =>
    rw [processCar_skip h]
    unfold recKeys
    simp [h]
  | some kv =>
    obtain ⟨k, v⟩ := kv
    have hrec : (recKeys [rid]).toFinset = {k} := by
      unfold recKeys
      simp [h]
    rw [hrec]
    unfold processCar
    rw [h]
    by_cases hm : k ∈ acc.1.seen
    · simp only [if_pos hm]
      exact (Finset.union_eq_left.mpr (Finset.singleton_subset_iff.mpr hm)).symm
    · simp only [if_neg hm]
      show insert k acc.1.seen = acc.1.seen ∪ {k}
      rw [Finset.insert_eq, Finset.union_comm]

theorem processCar_lencard {acc : CrawlState × Nat × Nat} (rid : RawRec)
    (h : acc.1.collected.length = acc.1.seen.card) :
    (processCar acc rid).1.collected.length = (processCar acc rid).1.seen.card := by
  unfold processCar
  cases hn : normalize_car_id rid with
  | none => exact h
  | some kv =>
    obtain ⟨k, v⟩ := kv
    by_cases hm : k ∈ acc.1.seen
    · simp only [if_pos hm]
      exact h
    · simp only [if_neg hm]
      simp [Finset.card_insert_of_not_mem hm, h]

theorem processCar_counts (acc : CrawlState × Nat × Nat) (rid : RawRec) :
    (processCar acc rid).2.1 + (processCar acc rid).2.2 =
      acc.2.1 + acc.2.2 + (if (normalize_car_id rid).isSome then 1 else 0) := by
  unfold processCar
  cases hn : normalize_car_id rid with
  | none => simp
  | some kv =>
    obtain ⟨k, v⟩ := kv
    by_cases hm : k ∈ acc.1.seen
    · simp only [if_pos hm]
      simp
      omega
    · simp only [if_neg hm]
      simp
      omega

theorem processCar_new_mono (acc : CrawlState × Nat × Nat) (rid : RawRec) :
    acc.2.1 ≤ (processCar acc rid).2.1 := by
  unfold processCar
  cases hn : normalize_car_id rid with
  | none => exact le_refl _
  | some kv =>
    obtain ⟨k, v⟩ := kv
    by_cases hm : k ∈ acc.1.seen
    · simp [if_pos hm]
    · simp [if_neg hm]

theorem processCar_same_of_new_eq (acc : CrawlState × Nat × Nat) (rid : RawRec)
    (h : (processCar acc rid).2.1 = acc.2.1) : (processCar acc rid).1 = acc.1 := by
  unfold processCar at h ⊢
  cases hn : normalize_car_id rid with
  | none => rfl
  | some kv =>
    obtain ⟨k, v⟩ := kv
    rw [hn] at h
    by_cases hm : k ∈ acc.1.seen
    · simp [if_pos hm]
    · simp only [if_neg hm] at h
      simp at h

theorem foldl_processCar_seen : ∀ (page : List RawRec) (acc : CrawlState × Nat × Nat),
    (page.foldl processCar acc).1.seen = acc.1.seen ∪ (recKeys page).toFinset := by
  intro page
  induction page with
  | nil => intro acc; simp [recKeys]
  | cons rid page ih =>
    intro acc
    rw [List.foldl_cons, ih (processCar acc rid), processCar_seen]
    have hk : recKeys (rid :: page) = recKeys [rid] ++ recKeys page := by
      unfold recKeys
      cases h : normalize_car_id rid <;> simp [h]
    rw [hk, List.toFinset_append, Finset.union_assoc]

theorem foldl_processCar_lencard : ∀ (page : List RawRec) (acc : CrawlState × Nat × Nat),
    acc.1.collected.length = acc.1.seen.card →
    (page.foldl processCar acc).1.collected.length =
      (page.foldl processCar acc).1.seen.card := by
  intro page
  induction page with
  | nil => intro acc h; exact h
  | cons rid page ih =>
    intro acc h
    rw [List.foldl_cons]
    exact ih _ (processCar_lencard rid h)

theorem foldl_processCar_counts : ∀ (page : List RawRec) (acc : CrawlState × Nat × Nat),
    (page.foldl processCar acc).2.1 + (page.foldl processCar acc).2.2 =
      acc.2.1 + acc.2.2 + page.countP (fun rid => (normalize_car_id rid).isSome) := by
  intro page
  induction page with
  | nil => intro acc; simp
  | cons rid page ih =>
    intro acc
    rw [List.foldl_cons, ih (processCar acc rid)]
    rw [processCar_counts]
    rw [List.countP_cons]
    by_cases hn : (normalize_car_id rid).isSome <;> omega

theorem foldl_processCar_new_mono : ∀ (page : List RawRec) (acc : CrawlState × Nat × Nat),
    acc.2.1 ≤ (page.foldl processCar acc).2.1 := by
  intro page
  induction page with
  | nil => intro acc; exact le_refl _
  | cons rid page ih =>
    intro acc
    rw [List.foldl_cons]
    exact le_trans (processCar_new_mono acc rid) (ih _)

theorem foldl_processCar_same_of_new_eq :
    ∀ (page : List RawRec) (acc : CrawlState × Nat × Nat),
    (page.foldl processCar acc).2.1 = acc.2.1 →
    (page.foldl processCar acc).1 = acc.1 := by
  intro page
  induction page with
  | nil => intro acc _; rfl
  | cons rid page ih =>
    intro acc h
    rw [List.foldl_cons] at h ⊢
    have h1 : acc.2.1 ≤ (processCar acc rid).2.1 := processCar_new_mono acc rid
    have h2 : (processCar acc rid).2.1 ≤ (page.foldl processCar (processCar acc rid)).2.1 :=
      foldl_processCar_new_mono page _
    have heq : (processCar acc rid).2.1 = acc.2.1 := by omega
    rw [ih _ (by omega), processCar_same_of_new_eq acc rid heq]

/-- A page whose new-count is zero leaves the state unchanged. -/
theorem processPage_same_of_new_zero {st : CrawlState} {page : List RawRec}
    (h : (processPage st page).2.1 = 0) : (processPage st page).1 = st :=
  foldl_processCar_same_of_new_eq page (st, 0, 0) h

theorem runYearB_cons_fail {h : HttpResult} (hf : fetch_page h = none)
    (st : CrawlState) (b : Int) (rest : List HttpResult) :
    runYearB st b (h :: rest) = ⟨st, b, 1, 0, []⟩ := by
  unfold runYearB
  rw [hf]

theorem runYearB_cons_empty {h : HttpResult} (hf : fetch_page h = some [])
    (st : CrawlState) (b : Int) (rest : List HttpResult) :
    runYearB st b (h :: rest) = ⟨st, b, 1, 0, []⟩ := by
  unfold runYearB
  rw [hf]

theorem runYearB_cons_page {h : HttpResult} {c : RawRec} {cs : List RawRec}
    (hf : fetch_page h = some (c :: cs))
    (st : CrawlState) (b : Int) (rest : List HttpResult) :
    runYearB st b (h :: rest) =
      if (processPage st (c :: cs)).2.1 = 0 then
        if b - 1 < 0 then ⟨(processPage st (c :: cs)).1, b - 1, 1, 1, c :: cs⟩
        else
          ⟨(runYearB (processPage st (c :: cs)).1 (b - 1) rest).state,
            (runYearB (processPage st (c :: cs)).1 (b - 1) rest).budget,
            (runYearB (processPage st (c :: cs)).1 (b - 1) rest).consumed + 1,
            (runYearB (processPage st (c :: cs)).1 (b - 1) rest).zpages + 1,
            (c :: cs) ++ (runYearB (processPage st (c :: cs)).1 (b - 1) rest).fed⟩
      else
        if b < 0 then ⟨(processPage st (c :: cs)).1, b, 1, 0, c :: cs⟩
        else
          ⟨(runYearB (processPage st (c :: cs)).1 b rest).state,
            (runYearB (processPage st (c :: cs)).1 b rest).budget,
            (runYearB (processPage st (c :: cs)).1 b rest).consumed + 1,
            (runYearB (processPage st (c :: cs)).1 b rest).zpages,
            (c :: cs) ++ (runYearB (processPage st (c :: cs)).1 b rest).fed⟩ := by
  conv_lhs => unfold runYearB
  rw [hf]

/-- The final budget of a year equals the initial budget minus the
number of consumed pages that contributed zero new identifiers: a
zero-new page decrements the budget exactly once and a productive page
never increases or restores it. -/
theorem runYearB_budget_z : ∀ (pages : List HttpResult) (st : CrawlState) (b : Int),
    (runYearB st b pages).budget = b - ((runYearB st b pages).zpages : Int) := by
  intro pages
  induction pages with
  | nil => intro st b; simp [runYearB]
  | cons h rest ih =>
    intro st b
    cases hf : fetch_page h with
    | none => rw [runYearB_cons_fail hf]; simp
    | some l =>
      cases l with
      | nil => rw [runYearB_cons_empty hf]; simp
      | cons c cs =>
        rw [runYearB_cons_page hf]
        by_cases hz : (processPage st (c :: cs)).2.1 = 0
        · rw [if_pos hz]
          by_cases hb : b - 1 < 0
          · rw [if_pos hb]; simp
          · rw [if_neg hb]
            have hrec := ih (processPage st (c :: cs)).1 (b - 1)
            dsimp only
            omega
        · rw [if_neg hz]
          by_cases hb : b < 0
          · rw [if_pos hb]; simp
          · rw [if_neg hb]
            have hrec := ih (processPage st (c :: cs)).1 b
            dsimp only
            omega

/-- The budget never falls further than one below zero. -/
theorem runYearB_budget_ge : ∀ (pages : List HttpResult) (st : CrawlState) (b : Int),
    0 ≤ b → -1 ≤ (runYearB st b pages).budget := by
  intro pages
  induction pages with
  | nil => intro st b hb; simp [runYearB]; omega
  | cons h rest ih =>
    intro st b hb
    cases hf : fetch_page h with
    | none => rw [runYearB_cons_fail hf]; dsimp only; omega
    | some l =>
      cases l with
      | nil => rw [runYearB_cons_empty hf]; dsimp only; omega
      | cons c cs =>
        rw [runYearB_cons_page hf]
        by_cases hz : (processPage st (c :: cs)).2.1 = 0
        · rw [if_pos hz]
          by_cases hbb : b - 1 < 0
          · rw [if_pos hbb]; dsimp only; omega
          · rw [if_neg hbb]
            exact ih (processPage st (c :: cs)).1 (b - 1) (by omega)
        · rw [if_neg hz]
          rw [if_neg (by omega : ¬ b < 0)]
          exact ih (processPage st (c :: cs)).1 b hb

/-- While every fetched page is a nonempty success, the year loop stops
early only through budget exhaustion (after exactly initial budget + 1
zero-new pages); otherwise it consumes the whole supply with the budget
still nonnegative. -/
theorem runYearB_complete : ∀ (pages : List HttpResult) (st : CrawlState) (b : Int),
    0 ≤ b → (∀ h ∈ pages, ∃ c cs, fetch_page h = some (c :: cs)) →
    ((runYearB st b pages).budget = -1 ∧
      ((runYearB st b pages).zpages : Int) = b + 1) ∨
    ((runYearB st b pages).consumed = pages.length ∧
      0 ≤ (runYearB st b pages).budget) := by
  intro pages
  induction pages with
  | nil =>
    intro st b hb _
    right
    constructor
    · rfl
    · simpa [runYearB] using hb
  | cons h rest ih =>
    intro st b hb hall
    obtain ⟨c, cs, hf⟩ := hall h (List.mem_cons_self h rest)
    have hrest : ∀ h₀ ∈ rest, ∃ c₀ cs₀, fetch_page h₀ = some (c₀ :: cs₀) :=
      fun h₀ hm => hall h₀ (List.mem_cons_of_mem h hm)
    rw [runYearB_cons_page hf]
    by_cases hz : (processPage st (c :: cs)).2.1 = 0
    · rw [if_pos hz]
      by_cases hbb : b - 1 < 0
      · rw [if_pos hbb]
        left
        dsimp only
        omega
      · rw [if_neg hbb]
        rcases ih (processPage st (c :: cs)).1 (b - 1) (by omega) hrest with
          ⟨hbud, hzp⟩ | ⟨hcons, hbud⟩
        · left
          dsimp only
          push_cast
          omega
        · right
          dsimp only
          constructor
          · rw [hcons, List.length_cons]
          · exact hbud
    · rw [if_neg hz]
      rw [if_neg (by omega : ¬ b < 0)]
      rcases ih (processPage st (c :: cs)).1 b hb hrest with
        ⟨hbud, hzp⟩ | ⟨hcons, hbud⟩
      · left
        exact ⟨hbud, hzp⟩
      · right
        dsimp only
        constructor
        · rw [hcons, List.length_cons]
        · exact hbud

/-- A failed fetch truncates the year at that page: the state after the
year equals the state reached on the pages before the failure, whatever
follows the failure. -/
theorem runYearB_append_fail : ∀ (ps : List HttpResult) (st : CrawlState) (b : Int)
    (h : HttpResult) (qs : List HttpResult), fetch_page h = none →
    (runYearB st b (ps ++ h :: qs)).state = (runYearB st b ps).state := by
  intro ps
  induction ps with
  | nil =>
    intro st b h qs hf
    rw [List.nil_append, runYearB_cons_fail hf]
    rfl
  | cons p ps ih =>
    intro st b h qs hf
    rw [List.cons_append]
    cases hp : fetch_page p with
    | none => rw [runYearB_cons_fail hp, runYearB_cons_fail hp]
    | some l =>
      cases l with
      | nil => rw [runYearB_cons_empty hp, runYearB_cons_empty hp]
      | cons c cs =>
        rw [runYearB_cons_page hp, runYearB_cons_page hp]
        by_cases hz : (processPage st (c :: cs)).2.1 = 0
        · rw [if_pos hz, if_pos hz]
          by_cases hbb : b - 1 < 0
          · rw [if_pos hbb, if_pos hbb]
          · rw [if_neg hbb, if_neg hbb]
            dsimp only
            exact ih _ _ h qs hf
        · rw [if_neg hz, if_neg hz]
          by_cases hbb : b < 0
          · rw [if_pos hbb, if_pos hbb]
          · rw [if_neg hbb, if_neg hbb]
            dsimp only
            exact ih _ _ h qs hf

/-- The seen set after a year is the initial seen set together with the
canonical keys of every record fed to the dedup loop during the year. -/
theorem runYearB_seen : ∀ (pages : List HttpResult) (st : CrawlState) (b : Int),
    (runYearB st b pages).state.seen =
      st.seen ∪ (recKeys (runYearB st b pages).fed).toFinset := by
  intro pages
  induction pages with
  | nil => intro st b; simp [runYearB, recKeys]
  | cons h rest ih =>
    intro st b
    cases hf : fetch_page h with
    | none => rw [runYearB_cons_fail hf]; simp [recKeys]
    | some l =>
      cases l with
      | nil => rw [runYearB_cons_empty hf]; simp [recKeys]
      | cons c cs =>
        have hpage : (processPage st (c :: cs)).1.seen =
            st.seen ∪ (recKeys (c :: cs)).toFinset :=
          foldl_processCar_seen (c :: cs) (st, 0, 0)
        rw [runYearB_cons_page hf]
        by_cases hz : (processPage st (c :: cs)).2.1 = 0
        · rw [if_pos hz]
          by_cases hbb : b - 1 < 0
          · rw [if_pos hbb]
            exact hpage
          · rw [if_neg hbb]
            dsimp only
            rw [ih (processPage st (c :: cs)).1 (b - 1), hpage]
            unfold recKeys
            rw [List.filterMap_append, List.toFinset_append, Finset.union_assoc]
        · rw [if_neg hz]
          by_cases hbb : b < 0
          · rw [if_pos hbb]
            exact hpage
          · rw [if_neg hbb]
            dsimp only
            rw [ih (processPage st (c :: cs)).1 b, hpage]
            unfold recKeys
            rw [List.filterMap_append, List.toFinset_append, Finset.union_assoc]

/-- Pagination preserves the one-entry-per-key size law: the collected
list stays exactly as long as the seen set is large. -/
theorem runYearB_lencard : ∀ (pages : List HttpResult) (st : CrawlState) (b : Int),
    st.collected.length = st.seen.card →
    (runYearB st b pages).state.collected.length =
      (runYearB st b pages).state.seen.card := by
  intro pages
  induction pages with
  | nil => intro st b hlc; exact hlc
  | cons h rest ih =>
    intro st b hlc
    cases hf : fetch_page h with
    | none => rw [runYearB_cons_fail hf]; exact hlc
    | some l =>
      cases l with
      | nil => rw [runYearB_cons_empty hf]; exact hlc
      | cons c cs =>
        have hpage : (processPage st (c :: cs)).1.collected.length =
            (processPage st (c :: cs)).1.seen.card :=
          foldl_processCar_lencard (c :: cs) (st, 0, 0) hlc
        rw [runYearB_cons_page hf]
        by_cases hz : (processPage st (c :: cs)).2.1 = 0
        · rw [if_pos hz]
          by_cases hbb : b - 1 < 0
          · rw [if_pos hbb]; exact hpage
          · rw [if_neg hbb]
            exact ih (processPage st (c :: cs)).1 (b - 1) hpage
        · rw [if_neg hz]
          by_cases hbb : b < 0
          · rw [if_pos hbb]; exact hpage
          · rw [if_neg hbb]
            exact ih (processPage st (c :: cs)).1 b hpage

/-- Same as runYearB_seen, one level up: over the whole year range. -/
theorem runYears_seen : ∀ (ys : List (List HttpResult)) (st : CrawlState),
    (runYears st ys).1.seen = st.seen ∪ (recKeys (runYears st ys).2).toFinset := by
  intro ys
  induction ys with
  | nil => intro st; simp [runYears, recKeys]
  | cons y ys ih =>
    intro st
    show (runYears (runYearB st DOUBLE_PAGES_TO_SKIP y).state ys).1.seen = _
    rw [ih, runYearB_seen]
    show _ = st.seen ∪ (recKeys ((runYearB st DOUBLE_PAGES_TO_SKIP y).fed ++
      (runYears (runYearB st DOUBLE_PAGES_TO_SKIP y).state ys).2)).toFinset
    unfold recKeys
    rw [List.filterMap_append, List.toFinset_append, Finset.union_assoc]

/-- Same as runYearB_lencard, over the whole year range. -/
theorem runYears_lencard : ∀ (ys : List (List HttpResult)) (st : CrawlState),
    st.collected.length = st.seen.card →
    (runYears st ys).1.collected.length = (runYears st ys).1.seen.card := by
  intro ys
  induction ys with
  | nil => intro st hlc; exact hlc
  | cons y ys ih =>
    intro st hlc
    exact ih _ (runYearB_lencard y st DOUBLE_PAGES_TO_SKIP hlc)

/-- A raw listing record as consumed by the record sink. Attribute
payloads are opaque to the sink and modelled by their string forms;
the condition descriptors field is the decoded list (absent ≡ empty),
and its textual JSON encoding is abstracted to the encoded list. -/
structure Car where
  idField : Option Str
  condition : List Str
  manufacturer : Option Str
  model : Option Str
  badge : Option Str
  transmission : Option Str
  fuelType : Option Str
  year : Option Str
  formYear : Option Str
  mileage : Option Str
  price : Option Str
  sellType : Option Str
  modifiedDate : Option Str
deriving DecidableEq

/-- One row of the cars table, minus the collected_at column which is
stamped at insertion time. -/
structure CarRow where
  id : Str
  condition : Option (List Str)
  manufacturer : Option Str
  model : Option Str
  badge : Option Str
  transmission : Option Str
  fuelType : Option Str
  year : Option Str
  formYear : Option Str
  mileage : Option Str
  price : Option Str
  sellType : Option Str
  modifiedDate : Option Str
deriving DecidableEq

/-- Embedding of extract_car_data (runScraper.py lines 245-267):
the record is dropped when its identifier is missing or its string
form is empty; the condition list is stored only when nonempty. -/
def extract_car_data (car : Car) : Option CarRow :=
  let car_id := car.idField.getD []
  if car_id = [] then none
  else
    some ⟨car_id,
      (if car.condition = [] then none else some car.condition),
      car.manufacturer, car.model, car.badge, car.transmission, car.fuelType,
      car.year, car.formYear, car.mileage, car.price, car.sellType,
      car.modifiedDate⟩

/-- The cars table: rows keyed by the id primary key, each carrying its
row data and its collected_at stamp. -/
abbrev CarsDb := List (Str × CarRow × Str)

/-- INSERT OR REPLACE keyed on the primary key: the conflicting row is
deleted in full and the new row inserted. -/
def db_upsert (db : CarsDb) (k : Str) (r : CarRow × Str) : CarsDb :=
  db.filter (fun p => !(p.1 == k)) ++ [(k, r)]

/-- Primary-key lookup in the cars table. -/
def db_find (db : CarsDb) (k : Str) : Option (CarRow × Str) :=
  (db.find? (fun p => p.1 == k)).map (fun p => p.2)

/-- Embedding of save_cars_to_db_batch (runScraper.py lines 270-298):
every extractable record is upserted keyed by its identifier and
counted; records that fail extraction are skipped without counting. -/
def save_cars_to_db_batch (db : CarsDb) (cars : List Car) (collected_at : Str) :
    CarsDb × Nat :=
  cars.foldl (fun acc car =>
    match extract_car_data car with
    | none => acc
    | some row => (db_upsert acc.1 row.id (row, collected_at), acc.2 + 1)) (db, 0)

theorem db_find_upsert (db : CarsDb) (k : Str) (r : CarRow × Str) :
    db_find (db_upsert db k r) k = some r := by
  unfold db_find db_upsert
  rw [List.find?_append]
  have hnone : (db.filter (fun p => !(p.1 == k))).find? (fun p => p.1 == k) = none := by
    rw [List.find?_eq_none]
    intro x hx
    have hmem := List.of_mem_filter hx
    simp only [Bool.not_eq_true'] at hmem
    simp [hmem]
  rw [hnone]
  simp

theorem save_batch_count : ∀ (cars : List Car) (db : CarsDb) (n : Nat) (ts : Str),
    (cars.foldl (fun acc car =>
      match extract_car_data car with
      | none => acc
      | some row => (db_upsert acc.1 row.id (row, ts), acc.2 + 1)) (db, n)).2 =
      n + cars.countP (fun car => (extract_car_data car).isSome) := by
  intro cars
  induction cars with
  | nil => intro db n ts; simp
  | cons car cars ih =>
    intro db n ts
    rw [List.foldl_cons, List.countP_cons]
    cases he : extract_car_data car with
    | none =>
      rw [ih]
      simp [he]
    | some row =>
      rw [ih]
      simp [he]
      omega

/-- Characterization of load_existing_results on a decoded entry list:
the collected list keeps, in order, the re-normalized stored value of
every entry whose string form normalizes, and the seen set is exactly
the canonical keys of the input entries. -/
theorem load_characterization : ∀ (entries : List StoredValue),
    (load_existing_results (some entries)).collected =
      entries.filterMap (fun v => (normalize_car_id (some (storedStr v))).map
        (fun p => p.2)) ∧
    (load_existing_results (some entries)).seen = (entryKeys entries).toFinset := by
  have main : ∀ (entries : List StoredValue) (st : CrawlState),
      (entries.foldl (fun st v =>
        match normalize_car_id (some (storedStr v)) with
        | none => st
        | some (k, sv) => ⟨st.collected ++ [sv], insert k st.seen⟩) st).collected =
        st.collected ++ entries.filterMap (fun v =>
          (normalize_car_id (some (storedStr v))).map (fun p => p.2)) ∧
      (entries.foldl (fun st v =>
        match normalize_car_id (some (storedStr v)) with
        | none => st
        | some (k, sv) => ⟨st.collected ++ [sv], insert k st.seen⟩) st).seen =
        st.seen ∪ (entryKeys entries).toFinset := by
    intro entries
    induction entries with
    | nil => intro st; simp [entryKeys]
    | cons v entries ih =>
      intro st
      rw [List.foldl_cons]
      cases hn : normalize_car_id (some (storedStr v)) with
      | none =>
        obtain ⟨ih1, ih2⟩ := ih st
        constructor
        · rw [ih1]
          simp [hn]
        · rw [ih2]
          unfold entryKeys entryKey
          simp [hn]
      | some kv =>
        obtain ⟨k, sv⟩ := kv
        obtain ⟨ih1, ih2⟩ := ih ⟨st.collected ++ [sv], insert k st.seen⟩
        constructor
        · rw [ih1]
          simp [hn]
        · rw [ih2]
          unfold entryKeys entryKey
          simp only [List.filterMap_cons, hn, Option.map_some']
          rw [List.toFinset_cons, Finset.insert_eq, Finset.insert_eq,
            Finset.union_comm {k} st.seen, Finset.union_assoc]
  intro entries
  obtain ⟨h1, h2⟩ := main entries ⟨[], ∅⟩
  constructor
  · show (load_existing_results (some entries)).collected = _
    unfold load_existing_results
    rw [h1]
    simp
  · show (load_existing_results (some entries)).seen = _
    unfold load_existing_results
    rw [h2]
    simp

/-- Inversion of a successful normalization. -/
theorem normalize_some_inv {s k : Str} {v : StoredValue}
    (h : normalize_car_id (some s) = some (k, v)) :
    k = strip s ∧ k ≠ [] ∧
    ((allDigits k = true ∧ v = .intV (parseDigits k)) ∨
      (allDigits k = false ∧ v = .strV k)) := by
  simp only [normalize_car_id] at h
  by_cases he : strip s = []
  · rw [if_pos he] at h
    cases h
  · rw [if_neg he] at h
    by_cases hd : allDigits (strip s)
    · rw [if_pos hd] at h
      obtain ⟨hk, hv⟩ := Prod.mk.injEq .. ▸ Option.some.inj h
      subst hk
      exact ⟨rfl, he, Or.inl ⟨hd, hv.symm⟩⟩
    · rw [if_neg hd] at h
      obtain ⟨hk, hv⟩ := Prod.mk.injEq .. ▸ Option.some.inj h
      subst hk
      exact ⟨rfl, he, Or.inr ⟨Bool.eq_false_iff.mpr hd, hv.symm⟩⟩

theorem filterMap_id_of {α : Type} {f : α → Option α} :
    ∀ l : List α, (∀ v ∈ l, f v = some v) → l.filterMap f = l := by
  intro l
  induction l with
  | nil => intro _; rfl
  | cons a l ih =>
    intro h
    rw [List.filterMap_cons, h a (List.mem_cons_self a l),
      ih (fun v hv => h v (List.mem_cons_of_mem a hv))]

/-- Page processing preserves the CollectedSet invariant when every
normalized identifier on the page has a stable stored value. -/
theorem foldl_processCar_inv : ∀ (page : List RawRec) (acc : CrawlState × Nat × Nat),
    SetInv acc.1 →
    (∀ rid ∈ page, ∀ k v, normalize_car_id rid = some (k, v) →
      normalize_car_id (some (storedStr v)) = some (k, v)) →
    SetInv (page.foldl processCar acc).1 := by
  intro page
  induction page with
  | nil => intro acc hinv _; exact hinv
  | cons rid page ih =>
    intro acc hinv hstable
    rw [List.foldl_cons]
    refine ih (processCar acc rid) ?_ (fun r hr => hstable r (List.mem_cons_of_mem rid hr))
    cases hn : normalize_car_id rid with
    | none => rw [processCar_skip hn]; exact hinv
    | some kv =>
      obtain ⟨k, v⟩ := kv
      unfold processCar
      rw [hn]
      by_cases hm : k ∈ acc.1.seen
      · simp only [if_pos hm]
        exact hinv
      · simp only [if_neg hm]
        obtain ⟨hseen, hnodup⟩ := hinv
        have hstab : normalize_car_id (some (storedStr v)) = some (k, v) :=
          hstable rid (List.mem_cons_self rid page) k v hn
      
        have hek : entryKeys [v] = [k] := by
          unfold entryKeys entryKey
          simp [hstab]
        have hkeys : entryKeys (acc.1.collected ++ [v]) =
            entryKeys acc.1.collected ++ [k] := by
          unfold entryKeys
          rw [List.filterMap_append]
          unfold entryKeys at hek
          rw [hek]
        have hknotin : k ∉ entryKeys acc.1.collected := by
          intro hk
          exact hm (hseen ▸ List.mem_toFinset.mpr hk)
        constructor
        · show insert k acc.1.seen = (entryKeys (acc.1.collected ++ [v])).toFinset
          rw [hkeys, List.toFinset_append, hseen]
          simp only [List.toFinset_cons, List.toFinset_nil]
          rw [Finset.insert_eq, Finset.insert_eq, Finset.union_comm {k} _]
          simp
        · show (entryKeys (acc.1.collected ++ [v])).Nodup
          rw [hkeys]
          rw [List.nodup_append]
          refine ⟨hnodup, List.nodup_singleton k, ?_⟩
          intro a ha hb
          rw [List.mem_singleton] at hb
          subst hb
          exact hknotin ha

/-- Failure of a page in one year does not disturb the processing of the
following years: the final state is the same as if that year's supply
had simply ended before the failing page. -/
theorem runYears_state_append_fail : ∀ (ys1 : List (List HttpResult))
    (init : CrawlState) (ps qs : List HttpResult) (h : HttpResult)
    (ys2 : List (List HttpResult)), fetch_page h = none →
    (runYears init (ys1 ++ (ps ++ h :: qs) :: ys2)).1 =
      (runYears init (ys1 ++ ps :: ys2)).1 := by
  intro ys1
  induction ys1 with
  | nil =>
    intro init ps qs h ys2 hf
    show (runYears (runYearB init DOUBLE_PAGES_TO_SKIP (ps ++ h :: qs)).state ys2).1 =
      (runYears (runYearB init DOUBLE_PAGES_TO_SKIP ps).state ys2).1
    rw [runYearB_append_fail ps init DOUBLE_PAGES_TO_SKIP h qs hf]
  | cons y ys1 ih =>
    intro init ps qs h ys2 hf
    show (runYears (runYearB init DOUBLE_PAGES_TO_SKIP y).state
      (ys1 ++ (ps ++ h :: qs) :: ys2)).1 =
      (runYears (runYearB init DOUBLE_PAGES_TO_SKIP y).state (ys1 ++ ps :: ys2)).1
    exact ih _ ps qs h ys2 hf

/-- After an upsert, the table holds exactly one row with the upserted key. -/
theorem db_upsert_count (db : CarsDb) (k : Str) (r : CarRow × Str) :
    (db_upsert db k r).countP (fun p => p.1 == k) = 1 := by
  unfold db_upsert
  rw [List.countP_append]
  have hz : (db.filter (fun p => !(p.1 == k))).countP (fun p => p.1 == k) = 0 := by
    rw [List.countP_eq_zero]
    intro a ha
    have hmem := List.of_mem_filter ha
    simp only [Bool.not_eq_true'] at hmem
    simp [hmem]
  rw [hz]
  simp

/-- Claim C9: normalize returns none exactly when the raw identifier is
null or its string form is empty after trimming; otherwise the trimmed
string is the canonical key, and the stored value is the parsed integer
when the trimmed string is all decimal digits and the trimmed string
itself when it is not. -/
theorem claim_C9_normalize_contract :
    (∀ r : Option Str, normalize_car_id r = none ↔
      (r = none ∨ ∃ s, r = some s ∧ strip s = [])) ∧
    (∀ s : Str, strip s ≠ [] →
      normalize_car_id (some s) = some (strip s,
        if allDigits (strip s) then .intV (parseDigits (strip s))
        else .strV (strip s))) := by
  constructor
  · intro r
    cases r with
    | none => simp [normalize_car_id]
    | some s =>
      simp only [normalize_car_id]
      by_cases he : strip s = []
      · simp [he]
      · by_cases hd : allDigits (strip s) <;> simp [he, hd]
  · intro s hs
    simp only [normalize_car_id]
    rw [if_neg hs]
    by_cases hd : allDigits (strip s)
    · rw [if_pos hd, if_pos hd]
    · rw [if_neg hd, if_neg hd]

/-- Witness for claim C9 at the raw identifier consisting of a seven
between spaces. -/
theorem claim_C9_witness :
    strip " 7 ".toList ≠ [] ∧
    normalize_car_id (some " 7 ".toList) = some (strip " 7 ".toList,
      if allDigits (strip " 7 ".toList) then .intV (parseDigits (strip " 7 ".toList))
      else .strV (strip " 7 ".toList)) :=
  ⟨by decide, claim_C9_normalize_contract.2 " 7 ".toList (by decide)⟩

/-- Claim C4 counterexample: the raw identifier 00042 normalizes to
canonical key 00042 with stored value 42, but the string form of that
stored value normalizes to the different canonical key 42 — so
normalize is not idempotent as claimed. -/
theorem claim_C4_counterexample :
    normalize_car_id (some "00042".toList) = some ("00042".toList, .intV 42) ∧
    normalize_car_id (some (storedStr (.intV 42))) = some ("42".toList, .intV 42) ∧
    ("42".toList : Str) ≠ "00042".toList := by
  refine ⟨by decide, by decide, by decide⟩

/-- Claim C4 (amended): normalize is deterministic, and it is idempotent
for every raw identifier whose trimmed form is not an all-digit string
with a leading zero; for those, re-normalizing the stored value's string
form returns exactly the original canonical key and stored value. -/
theorem claim_C4_amended :
    (∀ r : Option Str, normalize_car_id r = normalize_car_id r) ∧
    (∀ (s k : Str) (v : StoredValue),
      normalize_car_id (some s) = some (k, v) →
      (allDigits k = true → 2 ≤ k.length → k.head? ≠ some '0') →
      normalize_car_id (some (storedStr v)) = some (k, v)) := by
  constructor
  · intro r
    rfl
  · intro s k v h hlz
    obtain ⟨hk, hne, hcase⟩ := normalize_some_inv h
    rcases hcase with ⟨hd, hv⟩ | ⟨hd, hv⟩
    · subst hv
      have hr : render (parseDigits k) = k :=
        render_parseDigits k hne hd (hlz hd)
      show normalize_car_id (some (render (parseDigits k))) = _
      have := normalize_storedStr_intV (parseDigits k)
      rw [storedStr] at this
      rw [this, hr]
    · subst hv
      have hsk : strip k = k := by
        rw [hk, strip_idem, ← hk]
      show normalize_car_id (some k) = some (k, .strV k)
      simp only [normalize_car_id]
      rw [hsk, if_neg hne, hd]
      simp

/-- Witness for the amended claim C4 at the raw identifier 73. -/
theorem claim_C4_witness :
    normalize_car_id (some "73".toList) = some ("73".toList, .intV 73) ∧
    normalize_car_id (some (storedStr (.intV 73))) =
      some ("73".toList, .intV 73) :=
  ⟨by decide,
    claim_C4_amended.2 "73".toList "73".toList (.intV 73) (by decide)
      (fun _ _ => by decide)⟩

/-- Claim C5: the raw identifier 00042 yields canonical key 00042 with
integer stored value 42; the later raw identifier 42 has a different
canonical key, so the controller adds a second entry rather than
deduplicating it (page new-count 2, repeat-count 0, both keys seen and
two entries collected). -/
theorem claim_C5_leading_zero_scenario :
    normalize_car_id (some "00042".toList) = some ("00042".toList, .intV 42) ∧
    normalize_car_id (some "42".toList) = some ("42".toList, .intV 42) ∧
    ("42".toList : Str) ≠ "00042".toList ∧
    (processPage ⟨[], ∅⟩ [some "00042".toList, some "42".toList]).1.collected =
      [.intV 42, .intV 42] ∧
    (processPage ⟨[], ∅⟩ [some "00042".toList, some "42".toList]).2.1 = 2 ∧
    (processPage ⟨[], ∅⟩ [some "00042".toList, some "42".toList]).2.2 = 0 ∧
    "00042".toList ∈ (processPage ⟨[], ∅⟩ [some "00042".toList, some "42".toList]).1.seen ∧
    "42".toList ∈ (processPage ⟨[], ∅⟩ [some "00042".toList, some "42".toList]).1.seen := by
  refine ⟨by decide, by decide, by decide, by decide, by decide, by decide,
    by decide, by decide⟩

/-- Claim C10: on every page, new_count + repeat_count equals the number
of records whose identifier normalizes successfully; a record whose
identifier fails normalization leaves the whole accumulator unchanged,
and inserting such a record anywhere in a page changes nothing — in
particular it can never affect the repeat budget. -/
theorem claim_C10_page_counters :
    (∀ (acc : CrawlState × Nat × Nat) (rid : RawRec),
      normalize_car_id rid = none → processCar acc rid = acc) ∧
    (∀ (st : CrawlState) (page : List RawRec),
      (processPage st page).2.1 + (processPage st page).2.2 =
        page.countP (fun rid => (normalize_car_id rid).isSome)) ∧
    (∀ (st : CrawlState) (p1 p2 : List RawRec) (rid : RawRec),
      normalize_car_id rid = none →
      processPage st (p1 ++ rid :: p2) = processPage st (p1 ++ p2)) := by
  refine ⟨fun acc rid h => processCar_skip h, ?_, ?_⟩
  · intro st page
    have h := foldl_processCar_counts page (st, 0, 0)
    simpa using h
  · intro st p1 p2 rid h
    unfold processPage
    rw [List.foldl_append, List.foldl_append, List.foldl_cons, processCar_skip h]

/-- Witness for claim C10: a null identifier is skipped without touching
state or counters, and splicing it into a page leaves the page's outcome
unchanged. -/
theorem claim_C10_witness :
    normalize_car_id none = none ∧
    processCar (⟨[], ∅⟩, 0, 0) none = (⟨[], ∅⟩, 0, 0) ∧
    processPage ⟨[], ∅⟩ ([some "5".toList] ++ none :: [some "6".toList]) =
      processPage ⟨[], ∅⟩ ([some "5".toList] ++ [some "6".toList]) :=
  ⟨rfl,
    claim_C10_page_counters.1 (⟨[], ∅⟩, 0, 0) none rfl,
    claim_C10_page_counters.2.2 ⟨[], ∅⟩ [some "5".toList] [some "6".toList] none rfl⟩

/-- Claim C1: for every sequence of result pages fed to the controller
starting from the empty CollectedSet, the final set has exactly one
entry per distinct canonical key among the successfully-normalizing fed
records: the seen keys are exactly the keys of the fed records, and
there are exactly as many collected entries as distinct keys, however
duplicates are spread over pages and years. -/
theorem claim_C1_dedup_exactness (years : List (List HttpResult)) :
    (scrape_trucks ⟨[], ∅⟩ years).1.seen =
      (recKeys (scrape_trucks ⟨[], ∅⟩ years).2.1).toFinset ∧
    (scrape_trucks ⟨[], ∅⟩ years).1.collected.length =
      (scrape_trucks ⟨[], ∅⟩ years).1.seen.card := by
  constructor
  · show (runYears ⟨[], ∅⟩ years).1.seen = (recKeys (runYears ⟨[], ∅⟩ years).2).toFinset
    rw [runYears_seen]
    simp
  · exact runYears_lencard years ⟨[], ∅⟩ rfl

/-- Claim C2: the repeat threshold constant is 10; over any year the
final budget is the initial budget minus the number of zero-new pages
consumed (each zero-new page decrements exactly once, and no productive
page ever increases or restores the budget); the budget never drops
further than one below zero; and while every page is a nonempty
success, the year's pagination either stops through budget exhaustion —
after exactly initial budget + 1 zero-new pages — or consumes the whole
page supply with the budget still nonnegative. -/
theorem claim_C2_repeat_budget :
    DOUBLE_PAGES_TO_SKIP = 10 ∧
    (∀ (pages : List HttpResult) (st : CrawlState) (b : Int),
      (runYearB st b pages).budget = b - ((runYearB st b pages).zpages : Int)) ∧
    (∀ (pages : List HttpResult) (st : CrawlState) (b : Int), 0 ≤ b →
      -1 ≤ (runYearB st b pages).budget) ∧
    (∀ (pages : List HttpResult) (st : CrawlState) (b : Int), 0 ≤ b →
      (∀ h ∈ pages, ∃ c cs, fetch_page h = some (c :: cs)) →
      ((runYearB st b pages).budget = -1 ∧
        ((runYearB st b pages).zpages : Int) = b + 1) ∨
      ((runYearB st b pages).consumed = pages.length ∧
        0 ≤ (runYearB st b pages).budget)) :=
  ⟨rfl, runYearB_budget_z, runYearB_budget_ge, runYearB_complete⟩

/-- Witness for claim C2: starting with budget 1 on a state that already
knows identifier 5, two pages carrying only identifier 5 are both
zero-new; the second exhausts the budget (final budget -1, two zero-new
pages = budget + 1, both pages consumed). -/
theorem claim_C2_witness :
    (-1 ≤ (runYearB ⟨[.intV 5], {"5".toList}⟩ 1
      [HttpResult.response 200 (some (some [some "5".toList])),
       HttpResult.response 200 (some (some [some "5".toList]))]).budget) ∧
    ((((runYearB ⟨[.intV 5], {"5".toList}⟩ 1
        [HttpResult.response 200 (some (some [some "5".toList])),
         HttpResult.response 200 (some (some [some "5".toList]))]).budget = -1 ∧
      ((runYearB ⟨[.intV 5], {"5".toList}⟩ 1
        [HttpResult.response 200 (some (some [some "5".toList])),
         HttpResult.response 200 (some (some [some "5".toList]))]).zpages : Int) =
        1 + 1) ∨
      ((runYearB ⟨[.intV 5], {"5".toList}⟩ 1
        [HttpResult.response 200 (some (some [some "5".toList])),
         HttpResult.response 200 (some (some [some "5".toList]))]).consumed =
        [HttpResult.response 200 (some (some [some "5".toList])),
         HttpResult.response 200 (some (some [some "5".toList]))].length ∧
        0 ≤ (runYearB ⟨[.intV 5], {"5".toList}⟩ 1
          [HttpResult.response 200 (some (some [some "5".toList])),
           HttpResult.response 200 (some (some [some "5".toList]))]).budget))) :=
  ⟨claim_C2_repeat_budget.2.2.1
      [HttpResult.response 200 (some (some [some "5".toList])),
       HttpResult.response 200 (some (some [some "5".toList]))]
      ⟨[.intV 5], {"5".toList}⟩ 1 (by decide),
    claim_C2_repeat_budget.2.2.2
      [HttpResult.response 200 (some (some [some "5".toList])),
       HttpResult.response 200 (some (some [some "5".toList]))]
      ⟨[.intV 5], {"5".toList}⟩ 1 (by decide)
      (by
        intro h hm
        rcases List.mem_cons.mp hm with rfl | hm2
        · exact ⟨some "5".toList, [], rfl⟩
        · rcases List.mem_cons.mp hm2 with rfl | hm3
          · exact ⟨some "5".toList, [], rfl⟩
          · exact absurd hm3 (List.not_mem_nil h))⟩

/-- Claim C7: a transport error, a non-200 status, and an undecodable
body each produce the typed fetch failure; a failed page truncates only
the current year (the year's final state is as if its page supply ended
before the failure); the crawl over the remaining years is undisturbed;
and the final unconditional persist of the CollectedSet always happens. -/
theorem claim_C7_failure_isolation :
    fetch_page .transportError = none ∧
    (∀ (status : Nat) (body : Option (Option (List RawRec))),
      status ≠ 200 → fetch_page (.response status body) = none) ∧
    fetch_page (.response 200 none) = none ∧
    (∀ (ps : List HttpResult) (st : CrawlState) (b : Int) (h : HttpResult)
      (qs : List HttpResult), fetch_page h = none →
      (runYearB st b (ps ++ h :: qs)).state = (runYearB st b ps).state) ∧
    (∀ (init : CrawlState) (ys1 : List (List HttpResult)) (ps qs : List HttpResult)
      (h : HttpResult) (ys2 : List (List HttpResult)), fetch_page h = none →
      (scrape_trucks init (ys1 ++ (ps ++ h :: qs) :: ys2)).1 =
        (scrape_trucks init (ys1 ++ ps :: ys2)).1) ∧
    (∀ (init : CrawlState) (years : List (List HttpResult)),
      (scrape_trucks init years).2.2 = (scrape_trucks init years).1.collected) := by
  refine ⟨rfl, ?_, rfl, runYearB_append_fail, ?_, fun init years => rfl⟩
  · intro status body hs
    show (if status ≠ 200 then none
      else
        match body with
        | none => none
        | some payload => some (payload.getD [])) = none
    rw [if_pos hs]
  · intro init ys1 ps qs h ys2 hf
    show (runYears init (ys1 ++ (ps ++ h :: qs) :: ys2)).1 =
      (runYears init (ys1 ++ ps :: ys2)).1
    exact runYears_state_append_fail ys1 init ps qs h ys2 hf

/-- Witness for claim C7: a 404 response is a typed failure; a transport
error in the middle of a one-year crawl truncates that year only, and
the persisted list is the final collected list. -/
theorem claim_C7_witness :
    fetch_page (.response 404 (some (some []))) = none ∧
    (runYearB ⟨[], ∅⟩ 10
      ([HttpResult.response 200 (some (some [some "5".toList]))] ++
        HttpResult.transportError :: [])).state =
      (runYearB ⟨[], ∅⟩ 10
        [HttpResult.response 200 (some (some [some "5".toList]))]).state ∧
    (scrape_trucks ⟨[], ∅⟩
      ([] ++ ([] ++ HttpResult.transportError :: []) :: [])).1 =
      (scrape_trucks ⟨[], ∅⟩ ([] ++ [] :: [])).1 ∧
    (scrape_trucks ⟨[], ∅⟩ [[]]).2.2 =
      (scrape_trucks ⟨[], ∅⟩ [[]]).1.collected :=
  ⟨claim_C7_failure_isolation.2.1 404 (some (some [])) (by decide),
    claim_C7_failure_isolation.2.2.2.1
      [HttpResult.response 200 (some (some [some "5".toList]))] ⟨[], ∅⟩ 10
      HttpResult.transportError [] rfl,
    claim_C7_failure_isolation.2.2.2.2.1 ⟨[], ∅⟩ [] [] []
      HttpResult.transportError [] rfl,
    claim_C7_failure_isolation.2.2.2.2.2 ⟨[], ∅⟩ [[]]⟩

/-- Claim C8: the record sink skips records with a missing identifier
and does not count them (the batch count is exactly the number of
extractable records); upserting two records with the same identifier
leaves exactly one row for that key, carrying the later record's
attribute values in full (replacement, never a merge). -/
theorem claim_C8_record_sink :
    (∀ car : Car, car.idField = none ∨ car.idField = some [] →
      extract_car_data car = none) ∧
    (∀ (db : CarsDb) (cars : List Car) (ts : Str),
      (save_cars_to_db_batch db cars ts).2 =
        cars.countP (fun car => (extract_car_data car).isSome)) ∧
    (∀ (db : CarsDb) (ts : Str) (car1 car2 : Car) (r1 r2 : CarRow),
      extract_car_data car1 = some r1 → extract_car_data car2 = some r2 →
      r1.id = r2.id →
      db_find (save_cars_to_db_batch db [car1, car2] ts).1 r2.id = some (r2, ts) ∧
      ((save_cars_to_db_batch db [car1, car2] ts).1.countP
        (fun p => p.1 == r2.id)) = 1) := by
  refine ⟨?_, ?_, ?_⟩
  · intro car h
    rcases h with h | h <;> simp [extract_car_data, h]
  · intro db cars ts
    have h := save_batch_count cars db 0 ts
    unfold save_cars_to_db_batch
    rw [h]
    omega
  · intro db ts car1 car2 r1 r2 h1 h2 hid
    have hfold : (save_cars_to_db_batch db [car1, car2] ts).1 =
        db_upsert (db_upsert db r1.id (r1, ts)) r2.id (r2, ts) := by
      unfold save_cars_to_db_batch
      rw [List.foldl_cons, h1, List.foldl_cons, h2, List.foldl_nil]
    rw [hfold]
    exact ⟨db_find_upsert _ _ _, db_upsert_count _ _ _⟩

/-- Witness for claim C8: a record with a missing identifier is skipped;
two records sharing identifier 7 but with different manufacturer values
leave exactly one row, the later one. -/
theorem claim_C8_witness :
    extract_car_data ⟨none, [], none, none, none, none, none, none, none,
      none, none, none, none⟩ = none ∧
    extract_car_data ⟨some "7".toList, [], some "A".toList, none, none, none,
      none, none, none, none, none, none, none⟩ =
      some ⟨"7".toList, none, some "A".toList, none, none, none, none, none,
        none, none, none, none, none⟩ ∧
    extract_car_data ⟨some "7".toList, [], some "B".toList, none, none, none,
      none, none, none, none, none, none, none⟩ =
      some ⟨"7".toList, none, some "B".toList, none, none, none, none, none,
        none, none, none, none, none⟩ ∧
    (db_find (save_cars_to_db_batch []
        [⟨some "7".toList, [], some "A".toList, none, none, none, none, none,
          none, none, none, none, none⟩,
         ⟨some "7".toList, [], some "B".toList, none, none, none, none, none,
          none, none, none, none, none⟩] "t".toList).1 "7".toList =
      some (⟨"7".toList, none, some "B".toList, none, none, none, none, none,
        none, none, none, none, none⟩, "t".toList) ∧
      ((save_cars_to_db_batch []
        [⟨some "7".toList, [], some "A".toList, none, none, none, none, none,
          none, none, none, none, none⟩,
         ⟨some "7".toList, [], some "B".toList, none, none, none, none, none,
          none, none, none, none, none⟩] "t".toList).1.countP
        (fun p => p.1 == "7".toList)) = 1) :=
  ⟨claim_C8_record_sink.1 _ (Or.inl rfl), by decide, by decide,
    claim_C8_record_sink.2.2 [] "t".toList _ _
      ⟨"7".toList, none, some "A".toList, none, none, none, none, none,
        none, none, none, none, none⟩
      ⟨"7".toList, none, some "B".toList, none, none, none, none, none,
        none, none, none, none, none⟩
      (by decide) (by decide) rfl⟩

/-- Claim C3 counterexample: the CollectedSet reached from the empty set
by processing the single raw identifier 00042 has canonical key 00042,
but saving it and loading it back yields a set with the same stored
values in the same order whose canonical key is 42 instead — the
persist/load round trip does not preserve canonical keys. -/
theorem claim_C3_counterexample :
    "00042".toList ∈ (processPage ⟨[], ∅⟩ [some "00042".toList]).1.seen ∧
    (load_existing_results (some (save_results
      (processPage ⟨[], ∅⟩ [some "00042".toList]).1))).collected =
      (processPage ⟨[], ∅⟩ [some "00042".toList]).1.collected ∧
    "00042".toList ∉ (load_existing_results (some (save_results
      (processPage ⟨[], ∅⟩ [some "00042".toList]).1))).seen ∧
    "42".toList ∈ (load_existing_results (some (save_results
      (processPage ⟨[], ∅⟩ [some "00042".toList]).1))).seen := by
  refine ⟨by decide, by decide, by decide, by decide⟩

/-- Claim C3 (amended): for every CollectedSet each of whose stored
values re-normalizes to itself and whose seen set is exactly the
canonical keys of its entries, saving and loading restores the set
exactly: identical canonical keys, identical stored values, same
insertion order. -/
theorem claim_C3_amended (st : CrawlState)
    (hself : ∀ v ∈ st.collected,
      ∃ k, normalize_car_id (some (storedStr v)) = some (k, v))
    (hseen : st.seen = (entryKeys st.collected).toFinset) :
    load_existing_results (some (save_results st)) = st := by
  obtain ⟨h1, h2⟩ := load_characterization (save_results st)
  apply CrawlState.ext
  · rw [h1]
    apply filterMap_id_of
    intro v hv
    obtain ⟨k, hk⟩ := hself v hv
    simp [hk]
  · rw [h2, hseen]
    rfl

/-- Witness for the amended claim C3 on a two-entry CollectedSet with an
integer and a string stored value. -/
theorem claim_C3_witness :
    (∀ v ∈ [StoredValue.intV 5, StoredValue.strV "ab".toList],
      ∃ k, normalize_car_id (some (storedStr v)) = some (k, v)) ∧
    load_existing_results (some (save_results
      ⟨[StoredValue.intV 5, StoredValue.strV "ab".toList],
        (entryKeys [StoredValue.intV 5, StoredValue.strV "ab".toList]).toFinset⟩)) =
      ⟨[StoredValue.intV 5, StoredValue.strV "ab".toList],
        (entryKeys [StoredValue.intV 5, StoredValue.strV "ab".toList]).toFinset⟩ := by
  have h1 : ∀ v ∈ [StoredValue.intV 5, StoredValue.strV "ab".toList],
      ∃ k, normalize_car_id (some (storedStr v)) = some (k, v) := by
    intro v hv
    rcases List.mem_cons.mp hv with rfl | hv2
    · exact ⟨"5".toList, by decide⟩
    · rcases List.mem_cons.mp hv2 with rfl | hv3
      · exact ⟨"ab".toList, by decide⟩
      · exact absurd hv3 (List.not_mem_nil v)
  exact ⟨h1, claim_C3_amended _ h1 rfl⟩

/-- Claim C6 counterexample: the invariant is not preserved by every
operation. Processing the page holding raw identifier 00042 from the
empty set yields a state whose seen set holds 00042 while its entry
sequence's canonical key is 42 (an orphan key); and loading a durable
file with two entries of value 5 yields a sequence with two entries of
equal canonical key. -/
theorem claim_C6_counterexample :
    SetInv (⟨[], (entryKeys []).toFinset⟩ : CrawlState) ∧
    ¬ SetInv (processPage ⟨[], (entryKeys []).toFinset⟩ [some "00042".toList]).1 ∧
    ¬ SetInv (load_existing_results (some [StoredValue.intV 5, StoredValue.intV 5])) := by
  refine ⟨⟨rfl, List.nodup_nil⟩, ?_, ?_⟩
  · intro h
    have hm : "00042".toList ∈
        (processPage ⟨[], (entryKeys []).toFinset⟩ [some "00042".toList]).1.seen := by
      decide
    rw [h.1] at hm
    exact absurd (List.mem_toFinset.mp hm) (by decide)
  · intro h
    exact absurd h.2 (by decide)

/-- Claim C6 (amended): page processing preserves the invariant provided
every identifier that normalizes on the page has a stored value whose
string form re-normalizes to the same key and value (true unless an
all-digit identifier has leading zeros); loading establishes the
invariant provided every file entry re-normalizes to itself and the
entries' canonical keys are pairwise distinct. -/
theorem claim_C6_amended :
    (∀ (st : CrawlState) (page : List RawRec), SetInv st →
      (∀ rid ∈ page, ∀ k v, normalize_car_id rid = some (k, v) →
        normalize_car_id (some (storedStr v)) = some (k, v)) →
      SetInv (processPage st page).1) ∧
    (∀ entries : List StoredValue,
      (∀ v ∈ entries, ∃ k, normalize_car_id (some (storedStr v)) = some (k, v)) →
      (entryKeys entries).Nodup →
      SetInv (load_existing_results (some entries))) := by
  constructor
  · intro st page hinv hstable
    exact foldl_processCar_inv page (st, 0, 0) hinv hstable
  · intro entries hself hnodup
    obtain ⟨h1, h2⟩ := load_characterization entries
    have hc : (load_existing_results (some entries)).collected = entries := by
      rw [h1]
      apply filterMap_id_of
      intro v hv
      obtain ⟨k, hk⟩ := hself v hv
      simp [hk]
    constructor
    · rw [h2, hc]
    · rw [hc]
      exact hnodup

/-- Witness for the amended claim C6: processing a page with identifier
5 from the empty set keeps the invariant, and loading a one-entry file
establishes it. -/
theorem claim_C6_witness :
    SetInv (⟨[], (entryKeys []).toFinset⟩ : CrawlState) ∧
    SetInv (processPage ⟨[], (entryKeys []).toFinset⟩ [some "5".toList]).1 ∧
    (entryKeys [StoredValue.intV 5]).Nodup ∧
    SetInv (load_existing_results (some [StoredValue.intV 5])) := by
  have hinv0 : SetInv (⟨[], (entryKeys []).toFinset⟩ : CrawlState) :=
    ⟨rfl, List.nodup_nil⟩
  have hst : ∀ rid ∈ [some "5".toList], ∀ k v,
      normalize_car_id rid = some (k, v) →
      normalize_car_id (some (storedStr v)) = some (k, v) := by
    intro rid hm k v h
    rcases List.mem_cons.mp hm with rfl | hm2
    · have h5 : normalize_car_id (some "5".toList) =
          some ("5".toList, StoredValue.intV 5) := by decide
      have hp := Option.some.inj ((h5.symm).trans h)
      rw [Prod.mk.injEq] at hp
      obtain ⟨hk, hv⟩ := hp
      subst hk
      subst hv
      decide
    · exact absurd hm2 (List.not_mem_nil rid)
  have hself : ∀ v ∈ [StoredValue.intV 5],
      ∃ k, normalize_car_id (some (storedStr v)) = some (k, v) := by
    intro v hv
    rcases List.mem_cons.mp hv with rfl | hv2
    · exact ⟨"5".toList, by decide⟩
    · exact absurd hv2 (List.not_mem_nil v)
  exact ⟨hinv0, claim_C6_amended.1 _ _ hinv0 hst, by decide,
    claim_C6_amended.2 _ hself (by decide)⟩
